import Mathlib

/-!
# Verification of the Skolverket-transkribering diarization pipeline

Shallow embedding of the speaker-diarization and job-queue logic of
`src/transcriber.py` and `src/main.py`.  Python floats are modelled as
rationals (`ℚ`); the external libraries (sklearn's agglomerative
clustering and silhouette scoring, the voice-embedding encoder) are
modelled as abstract inputs, since the repository treats them as black
boxes and only the selection/assignment logic around them is its own
code.
-/

namespace Transcriber

/-! ## SpeakerDiarizer._cluster (src/transcriber.py lines 353-415)

The clustering routine receives a list of embeddings.  Everything the
code computes from them through external libraries is abstracted into
parameters:

* `n`            — `len(embeddings)`;
* `avgSimilarity`, `minSimilarity` — `np.mean`/`np.min` of the pairwise
  cosine similarities (upper triangle; possibly of a random sample when
  `n > 50`), line 373-374;
* `sil k`        — `silhouette_score(embeddings_array, labels)` for the
  `k`-cluster labelling, line 392 (consulted only for `k ≥ 2`);
* `fitPredict k` — `AgglomerativeClustering(n_clusters=k).fit_predict`,
  lines 385-386 and 414-415 (the clustering is deterministic for fixed
  input, so the scoring run and the final run agree).
-/

/-- The fixed `k = 1` heuristic score, lines 389-390:
`0.28 if avg_similarity > 0.85 else (0.12 if avg_similarity > 0.75 else
(0.0 if avg_similarity > 0.65 else -0.15))`. -/
def score1 (avgSimilarity : ℚ) : ℚ :=
  if 85/100 < avgSimilarity then 28/100
  else if 75/100 < avgSimilarity then 12/100
  else if 65/100 < avgSimilarity then 0
  else -(15/100)

/-- `scores[k]` of lines 388-392: the heuristic for one cluster, the
silhouette score otherwise. -/
def clusterScores (avgSimilarity : ℚ) (sil : ℕ → ℚ) (k : ℕ) : ℚ :=
  if k = 1 then score1 avgSimilarity else sil k

/-- `penalty` of line 399: `0.01 if n == 2 else (n - 2) * 0.03 + 0.01`
(only ever evaluated at `n ≥ 2`). -/
def penalty (n : ℕ) : ℚ :=
  if n = 2 then 1/100 else ((n - 2 : ℕ) : ℚ) * (3/100) + 1/100

/-- `max_speakers = min(10, len(embeddings))`, line 377. -/
def maxSpeakers (n : ℕ) : ℕ := min 10 n

/-- One iteration of the selection loop of lines 398-402: a candidate
`n` replaces the running best only when its penalized score strictly
exceeds the running best score. -/
def bestStep (avgSimilarity : ℚ) (sil : ℕ → ℚ) (best : ℕ × ℚ) (n : ℕ) : ℕ × ℚ :=
  if best.2 < clusterScores avgSimilarity sil n - penalty n then
    (n, clusterScores avgSimilarity sil n - penalty n)
  else best

/-- `best_n` after the loop of lines 395-402: the search starts at
`(1, scores[1])` and folds the candidates `2, …, max_speakers` through
`bestStep` (`range(2, max_speakers + 1)`). -/
def bestN (n : ℕ) (avgSimilarity : ℚ) (sil : ℕ → ℚ) : ℕ :=
  ((List.range' 2 (maxSpeakers n - 1)).foldl (bestStep avgSimilarity sil)
    (1, clusterScores avgSimilarity sil 1)).1

/-- `best_n` after the reversion guard of lines 404-409: revert to one
speaker when similarity is extremely high, the chosen score is weak and
the one-speaker score clearly beats it. -/
def finalBestN (n : ℕ) (avgSimilarity minSimilarity : ℚ) (sil : ℕ → ℚ) : ℕ :=
  if 1 < bestN n avgSimilarity sil ∧ 92/100 < avgSimilarity ∧ 80/100 < minSimilarity ∧
      clusterScores avgSimilarity sil (bestN n avgSimilarity sil) < 2/10 ∧
      clusterScores avgSimilarity sil (bestN n avgSimilarity sil) + 1/10 <
        clusterScores avgSimilarity sil 1 then
    1
  else bestN n avgSimilarity sil

/-- `SpeakerDiarizer._cluster`, lines 353-415: fewer than two embeddings
get the all-zero labelling (`[0] * len(embeddings)`, line 357) without
consulting similarities or the clustering library; otherwise the final
labels are one more agglomerative run at the selected cluster count. -/
def cluster (n : ℕ) (avgSimilarity minSimilarity : ℚ) (sil : ℕ → ℚ)
    (fitPredict : ℕ → List ℕ) : List ℕ :=
  if n < 2 then List.replicate n 0
  else fitPredict (finalBestN n avgSimilarity minSimilarity sil)

/-! ## SpeakerDiarizer.diarize — speaker assignment (lines 252-327)

A transcription segment as `_get_timestamps` sees it (line 340-344):
the extracted `start`/`end` values, where `none` models Python's `None`
(a key explicitly set to `None`, or a `timestamp` tuple whose component
is `None`, both of which the code guards against on lines 271 and
307-308); a missing key extracts as `some 0` (`segment.get("start", 0)`).
Audio loading, the 0.3-second filter and the embedding encoder are
external; the surviving `(start, end)` pairs (`valid_segments`) and the
cluster labels enter the model as parameters.  `valid_segments` and
`embeddings` are appended in lockstep (lines 280-281), so `valid = []`
exactly when `embeddings` is empty. -/

structure RawSeg where
  start : Option ℚ
  endTime : Option ℚ
deriving DecidableEq

/-- One element of the `speaker_segments` output of `diarize`:
`{"speaker": …, "start": …, "end": …}`. -/
structure SpeakerSeg where
  speaker : String
  start : ℚ
  endTime : ℚ
deriving DecidableEq

/-- The assignment walk of lines 302-322: `label_idx` starts at 0; a
segment lacking a timestamp is skipped (`continue`, line 307-308); a
segment matching the next surviving segment within `0.05` on both
bounds takes that label and advances `label_idx`; any other segment
takes `"Speaker 0"` without advancing. -/
def assignSpeakers (valid : List (ℚ × ℚ)) (labels : List ℕ) :
    List RawSeg → ℕ → List SpeakerSeg
  | [], _ => []
  | s :: rest, li =>
    match s.start, s.endTime with
    | some st, some en =>
        if li < valid.length then
          if |st - (valid.getD li (0, 0)).1| < 1/20 ∧
              |en - (valid.getD li (0, 0)).2| < 1/20 then
            ⟨"Speaker " ++ toString (labels.getD li 0), st, en⟩ ::
              assignSpeakers valid labels rest (li + 1)
          else
            ⟨"Speaker 0", st, en⟩ :: assignSpeakers valid labels rest li
        else
          ⟨"Speaker 0", st, en⟩ :: assignSpeakers valid labels rest li
    | _, _ => assignSpeakers valid labels rest li

/-- `SpeakerDiarizer.diarize`, lines 252-327: empty input gives `[]`
(line 255-256); zero usable embeddings give every segment the default
speaker (lines 288-290, where Python's `start or 0` is `getD 0` for the
timestamps in play); otherwise the assignment walk runs.  `valid` and
`labels` are the surviving-segment list and the cluster labels
(parallel lists of equal length in every actual run). -/
def diarize (segments : List RawSeg) (valid : List (ℚ × ℚ)) (labels : List ℕ) :
    List SpeakerSeg :=
  if segments = [] then []
  else if valid = [] then
    segments.map (fun s => ⟨"Speaker 0", s.start.getD 0, s.endTime.getD 0⟩)
  else assignSpeakers valid labels segments 0

/-! ## TranscriptionEngine._format_result (src/transcriber.py lines 570-617)

`combined` is the output of `_combine`: entries `{text, speaker, start,
end}` (the `end` field is unused by `_format_result` and omitted). -/

structure CombinedSeg where
  text : String
  speaker : String
  start : ℚ
deriving DecidableEq

/-- One element of `transcribed_text`, lines 579-583:
`{"text": …, "speakerIndex": …, "timestamp": …}`. -/
structure TranscriptEntry where
  text : String
  speakerIndex : ℕ
  timestamp : String
deriving DecidableEq

instance : Inhabited TranscriptEntry := ⟨⟨"", 0, ""⟩⟩

/-- Python's `f"{n:02d}"`: zero-pad a small nonnegative number to two
digits. -/
def pad2 (n : ℤ) : String :=
  if 0 ≤ n ∧ n < 10 then "0" ++ toString n else toString n

/-- Python's float `%` (sign of the divisor; here only used with positive
divisors). -/
def qmod (a b : ℚ) : ℚ := a - b * ⌊a / b⌋

/-- `_format_timestamp`, lines 611-617: `HH:MM:SS` with `//` and `%`
arithmetic, truncated to whole seconds. -/
def formatTimestamp (seconds : ℚ) : String :=
  pad2 ⌊seconds / 3600⌋ ++ ":" ++ pad2 ⌊qmod seconds 3600 / 60⌋ ++ ":" ++
    pad2 ⌊qmod seconds 60⌋

/-- `speakers = sorted(list(set(entry["speaker"] for entry in combined)))`,
line 573: the distinct speaker labels in sorted order. -/
def speakersOf (combined : List CombinedSeg) : List String :=
  (combined.map CombinedSeg.speaker).toFinset.sort (· ≤ ·)

/-- `speaker_map = {speaker: idx for idx, speaker in enumerate(speakers)}`,
line 574: each label maps to its position in the sorted distinct list. -/
def speakerMap (combined : List CombinedSeg) (s : String) : ℕ :=
  (speakersOf combined).indexOf s

/-- `transcribed_text`, lines 576-583: one entry per combined segment,
with the dense speaker index and the formatted start timestamp. -/
def transcribedText (combined : List CombinedSeg) : List TranscriptEntry :=
  combined.map (fun entry =>
    ⟨entry.text, speakerMap combined entry.speaker, formatTimestamp entry.start⟩)

/-- One step of the merge loop of lines 586-593: when the accumulated
list ends in an entry with the same `speakerIndex`, append the text to
that last entry (keeping its timestamp); otherwise push a new entry. -/
def mergeStep (acc : List TranscriptEntry) (entry : TranscriptEntry) :
    List TranscriptEntry :=
  match acc.getLast? with
  | some last =>
      if last.speakerIndex = entry.speakerIndex then
        acc.dropLast ++ [{ last with text := last.text ++ " " ++ entry.text }]
      else acc ++ [entry]
  | none => [entry]

/-- `merged_text` of lines 585-593: the merge loop over `transcribed_text`. -/
def mergeEntries (entries : List TranscriptEntry) : List TranscriptEntry :=
  entries.foldl mergeStep []

/-- The merge loop rephrased with the pending (last) entry carried
explicitly; proved equal to `mergeEntries` below. -/
def mergeGo (cur : TranscriptEntry) : List TranscriptEntry → List TranscriptEntry
  | [] => [cur]
  | e :: rest =>
      if cur.speakerIndex = e.speakerIndex then
        mergeGo { cur with text := cur.text ++ " " ++ e.text } rest
      else cur :: mergeGo e rest

/-- Modelled from the spec's words: texts concatenated with a single
space between consecutive texts. -/
def joinTexts : List String → String
  | [] => ""
  | [t] => t
  | t :: ts => t ++ " " ++ joinTexts ts

/-- Modelled from the spec's words: the maximal runs of adjacent entries
sharing the same `speakerIndex`. -/
def runsBy : List TranscriptEntry → List (List TranscriptEntry)
  | [] => []
  | e :: rest =>
    match runsBy rest with
    | [] => [[e]]
    | r :: rs =>
        if e.speakerIndex = r.headI.speakerIndex then (e :: r) :: rs
        else [e] :: r :: rs

/-- Modelled from the spec's words: a run is replaced by one entry whose
text is the run's texts joined by single spaces and whose speaker index
and timestamp are the first entry's. -/
def collapseRun (r : List TranscriptEntry) : TranscriptEntry :=
  ⟨joinTexts (r.map TranscriptEntry.text), r.headI.speakerIndex, r.headI.timestamp⟩

/-! ## Api job queue and worker (src/main.py)

`active_jobs` is a Python dict keyed by file path; it is modelled as an
insertion-ordered association list with dict update semantics.  The
pipeline internals of one job are abstracted into a `JobOutcome`: what
`engine.transcribe` (which catches every exception internally, lines
525-530 of src/transcriber.py, returning a result with an `error`
message) and `engine.save_result` (which can raise) do on that run. -/

/-- One entry of `active_jobs`: `{"progress", "status", "message"}`. -/
structure JobStatus where
  progress : ℚ
  status : String
  message : String
deriving DecidableEq

/-- How one job's pipeline run ends: clean success; an exception inside
the engine's `transcribe` (caught there, surfacing as `result.error`);
or an exception raised after it inside `_transcribe_file` (for example
from `save_result`), caught by the handler of lines 321-336. -/
inductive JobOutcome
  | success
  | transcribeError (msg : String)
  | saveError (msg : String)
deriving DecidableEq

/-- Python `active_jobs.get(fp)` / `fp in active_jobs`. -/
def lookupJob (tbl : List (String × JobStatus)) (fp : String) : Option JobStatus :=
  (tbl.find? (fun p => p.1 = fp)).map Prod.snd

/-- Python `active_jobs[fp] = st`: replace in place, else append. -/
def setJob : List (String × JobStatus) → String → JobStatus →
    List (String × JobStatus)
  | [], fp, st => [(fp, st)]
  | p :: rest, fp, st =>
      if p.1 = fp then (fp, st) :: rest else p :: setJob rest fp st

/-- `Api._transcribe_file` (src/main.py lines 279-336): ensure the entry
exists and mark it processing (lines 283-291); run the engine; on a
`result.error` set `error` with that message (lines 311-313, guarded by
membership); on success save the result and set `completed` with
progress 100 (lines 315-320); any exception raised in between lands in
the handler of lines 321-336, which records `error` with the exception
text (creating the entry when missing).  Progress-callback updates,
which only touch `progress`/`message` mid-run, are elided. -/
def transcribeFile (tbl : List (String × JobStatus)) (fp : String)
    (outcome : JobOutcome) : List (String × JobStatus) :=
  let tbl1 :=
    match lookupJob tbl fp with
    | none => setJob tbl fp ⟨0, "processing", "Starting..."⟩
    | some st => setJob tbl fp { st with status := "processing" }
  match outcome with
  | .success =>
      match lookupJob tbl1 fp with
      | some st => setJob tbl1 fp
          { st with status := "completed", progress := 100, message := "Complete" }
      | none => tbl1
  | .transcribeError m =>
      match lookupJob tbl1 fp with
      | some st => setJob tbl1 fp { st with status := "error", message := m }
      | none => tbl1
  | .saveError m =>
      match lookupJob tbl1 fp with
      | some st => setJob tbl1 fp { st with status := "error", message := m }
      | none => setJob tbl1 fp ⟨0, "error", m⟩

/-- `Api._process_queue` (lines 266-277): pop jobs FIFO until the queue
is empty; every job goes through `_transcribe_file`, whose failures
never escape, so the loop always reaches the next job. -/
def processQueue (tbl : List (String × JobStatus)) :
    List (String × JobOutcome) → List (String × JobStatus)
  | [] => tbl
  | (fp, outcome) :: rest => processQueue (transcribeFile tbl fp outcome) rest

/-- The terminal status a job's outcome produces. -/
def expectedStatus : JobOutcome → String
  | .success => "completed"
  | .transcribeError _ => "error"
  | .saveError _ => "error"

/-! ## Worker-spawn interleavings (src/main.py lines 256-274)

`startTranscription` appends to the queue under `_queue_lock` (lines
240-256), then — outside any lock — reads `self.is_processing` and
starts a worker thread when it is false (lines 258-260).  The spawned
worker sets `self.is_processing = True` only as its own first statement
(line 268), once the OS schedules it.  Each of these is one atomic
action of the model. -/

inductive SchedAction
  | enqueue (tid : ℕ)
  | startIfIdle (tid : ℕ)
  | workerBegin
deriving DecidableEq

/-- Shared scheduler state: the queue length, the `is_processing` flag
and how many worker threads have been started. -/
structure SchedState where
  queueLen : ℕ
  isProcessing : Bool
  workersSpawned : ℕ
deriving DecidableEq

/-- Before any call: empty queue, `is_processing = False` (line 36), no
worker. -/
def initialSched : SchedState := ⟨0, false, 0⟩

/-- Effect of one atomic action. -/
def schedStep (s : SchedState) : SchedAction → SchedState
  | .enqueue _ => { s with queueLen := s.queueLen + 1 }
  | .startIfIdle _ =>
      if s.isProcessing then s
      else { s with workersSpawned := s.workersSpawned + 1 }
  | .workerBegin => { s with isProcessing := true }

def schedRun (acts : List SchedAction) : SchedState :=
  acts.foldl schedStep initialSched

/-- The statements of one `startTranscription` call in program order:
the locked enqueue, then the unlocked check-and-start. -/
def callerProgram (tid : ℕ) : List SchedAction :=
  [.enqueue tid, .startIfIdle tid]

def actionTid : SchedAction → Option ℕ
  | .enqueue t => some t
  | .startIfIdle t => some t
  | .workerBegin => none

/-- A valid interleaving of two concurrent `startTranscription` callers
(ids 1 and 2) and the spawned workers' first statements: each caller's
actions appear in program order, and at every point no more workers
have begun running than have been spawned. -/
def validTwoCallerSchedule (acts : List SchedAction) : Prop :=
  acts.filter (fun a => actionTid a = some 1) = callerProgram 1 ∧
  acts.filter (fun a => actionTid a = some 2) = callerProgram 2 ∧
  ∀ k, k ≤ acts.length →
    (acts.take k).count SchedAction.workerBegin ≤
      (schedRun (acts.take k)).workersSpawned

/-! ## Api.startTranscription input mapping (src/main.py lines 210-264) -/

/-- The `Language` enum of src/transcriber.py lines 25-29. -/
inductive Language
  | SWEDISH
  | ENGLISH
  | AUTO
deriving DecidableEq

/-- The `ModelSize` enum of src/transcriber.py lines 32-37. -/
inductive ModelSize
  | TINY
  | SMALL
  | MEDIUM
  | LARGE
deriving DecidableEq

/-- Python's `str.lower()`, character by character. -/
def strLower (s : String) : String := ⟨s.data.map Char.toLower⟩

/-- `lang_map.get(language.lower(), Language.SWEDISH)`, lines 223-228:
only `"sv"` and `"en"` are recognized; anything else falls back to
Swedish. -/
def parseLanguage (language : String) : Language :=
  if strLower language = "sv" then Language.SWEDISH
  else if strLower language = "en" then Language.ENGLISH
  else Language.SWEDISH

/-- `model_map.get(model_size.lower(), ModelSize.MEDIUM)`, lines 230-237. -/
def parseModelSize (modelSize : String) : ModelSize :=
  if strLower modelSize = "tiny" then ModelSize.TINY
  else if strLower modelSize = "small" then ModelSize.SMALL
  else if strLower modelSize = "medium" then ModelSize.MEDIUM
  else if strLower modelSize = "large" then ModelSize.LARGE
  else ModelSize.MEDIUM

/-- The `TranscriptionJob` dataclass fields `startTranscription` fills
(lines 251-255). -/
structure TranscriptionJob where
  file_path : String
  language : Language
  model_size : ModelSize
deriving DecidableEq

/-- The dict `startTranscription` returns. -/
structure StartResult where
  success : Bool
  message : String
deriving DecidableEq

/-- `Api.startTranscription` (lines 210-264), restricted to its data
effect: map the language and model strings through the defaulting
lookups, initialize an `active_jobs` entry for paths not yet tracked
(lines 242-248), append one job per path to the queue (lines 250-256)
and report success; no input validation rejects anything.  The worker
spawn of lines 258-260 is modelled by `schedStep`. -/
def startTranscription (activeJobs : List (String × JobStatus))
    (queue : List TranscriptionJob) (filePaths : List String)
    (language modelSize : String) :
    StartResult × List (String × JobStatus) × List TranscriptionJob :=
  let lang := parseLanguage language
  let model := parseModelSize modelSize
  let activeJobs2 := filePaths.foldl (fun tbl fp =>
    match lookupJob tbl fp with
    | none => setJob tbl fp ⟨0, "pending", "Queued"⟩
    | some _ => tbl) activeJobs
  let queue2 := queue ++ filePaths.map (fun fp => ⟨fp, lang, model⟩)
  (⟨true, "Started transcription for " ++ toString filePaths.length ++ " file(s)"⟩,
   activeJobs2, queue2)

/-- The penalty exactly as the specification words it: `penalty(1) = 0`,
`penalty(2) = 0.01`, `penalty(k) = (k-2)*0.03 + 0.01` for `k > 2`
(the spec-side counterpart of `penalty`, which the code never applies
to `k = 1`). -/
def penaltySpec (k : ℕ) : ℚ := if k = 1 then 0 else penalty k

/-- The penalized score `score[k] - penalty(k)` the specification says the
search maximizes. -/
def pscore (avgSimilarity : ℚ) (sil : ℕ → ℚ) (k : ℕ) : ℚ :=
  clusterScores avgSimilarity sil k - penaltySpec k

/-- The selection loop's state after the candidates `2, …, k + 1`. -/
def bestFold (a : ℚ) (sil : ℕ → ℚ) (k : ℕ) : ℕ × ℚ :=
  (List.range' 2 k).foldl (bestStep a sil) (1, clusterScores a sil 1)

lemma bestN_eq_bestFold (n : ℕ) (a : ℚ) (sil : ℕ → ℚ) :
    bestN n a sil = (bestFold a sil (maxSpeakers n - 1)).1 := rfl

lemma pscore_one (a : ℚ) (sil : ℕ → ℚ) : pscore a sil 1 = clusterScores a sil 1 := by
  simp [pscore, penaltySpec]

lemma pscore_of_two_le (a : ℚ) (sil : ℕ → ℚ) {j : ℕ} (h : 2 ≤ j) :
    pscore a sil j = clusterScores a sil j - penalty j := by
  have : j ≠ 1 := by omega
  simp [pscore, penaltySpec, this]

/-- Loop invariant for the `best_n` search of lines 395-402: after
candidates `2, …, k + 1` the running best holds a candidate in
`1..k+1`, its value is that candidate's penalized score, no candidate in
range beats it, and every smaller candidate is strictly below it (a tie
never displaces the running best). -/
lemma bestFold_invariant (a : ℚ) (sil : ℕ → ℚ) (k : ℕ) :
    1 ≤ (bestFold a sil k).1 ∧ (bestFold a sil k).1 ≤ k + 1 ∧
    (bestFold a sil k).2 = pscore a sil (bestFold a sil k).1 ∧
    (∀ j, 1 ≤ j → j ≤ k + 1 → pscore a sil j ≤ (bestFold a sil k).2) ∧
    (∀ j, 1 ≤ j → j < (bestFold a sil k).1 → pscore a sil j < (bestFold a sil k).2) := by
  induction k with
  | zero =>
      have h0 : bestFold a sil 0 = (1, clusterScores a sil 1) := rfl
      refine ⟨?_, ?_, ?_, ?_, ?_⟩ <;> rw [h0]
      · simpa using (pscore_one a sil).symm
      · intro j h1 h2
        have hj : j = 1 := by omega
        subst hj
        simp [pscore_one]
      · intro j h1 h2
        simp at h2
        omega
  | succ k ih =>
      obtain ⟨ih1, ih2, ih3, ih4, ih5⟩ := ih
      have hstep : bestFold a sil (k + 1) = bestStep a sil (bestFold a sil k) (2 + k) := by
        have hc : List.range' 2 (k + 1) = List.range' 2 k ++ [2 + k] := by
          simpa using List.range'_1_concat 2 k
        simp [bestFold, hc]
      have h2k : 2 ≤ 2 + k := by omega
      have hps : pscore a sil (2 + k) = clusterScores a sil (2 + k) - penalty (2 + k) :=
        pscore_of_two_le a sil h2k
      by_cases h : (bestFold a sil k).2 < clusterScores a sil (2 + k) - penalty (2 + k)
      · have hval : bestFold a sil (k + 1) =
            (2 + k, clusterScores a sil (2 + k) - penalty (2 + k)) := by
          rw [hstep]; simp [bestStep, h]
        refine ⟨?_, ?_, ?_, ?_, ?_⟩
        · rw [hval]; omega
        · rw [hval]; omega
        · rw [hval, hps]
        · intro j h1 hj
          rw [hval]
          rcases Nat.lt_or_ge j (k + 2) with hlt | hge
          · have := ih4 j h1 (by omega)
            calc pscore a sil j ≤ (bestFold a sil k).2 := this
              _ ≤ clusterScores a sil (2 + k) - penalty (2 + k) := le_of_lt h
          · have hj2 : j = 2 + k := by omega
            subst hj2
            rw [← hps]
        · intro j h1 hj
          rw [hval] at hj ⊢
          have := ih4 j h1 (by omega)
          calc pscore a sil j ≤ (bestFold a sil k).2 := this
            _ < clusterScores a sil (2 + k) - penalty (2 + k) := h
      · have hval : bestFold a sil (k + 1) = bestFold a sil k := by
          rw [hstep]; simp [bestStep, h]
        refine ⟨?_, ?_, ?_, ?_, ?_⟩
        · rw [hval]; exact ih1
        · rw [hval]; omega
        · rw [hval]; exact ih3
        · intro j h1 hj
          rw [hval]
          rcases Nat.lt_or_ge j (k + 2) with hlt | hge
          · exact ih4 j h1 (by omega)
          · have hj2 : j = 2 + k := by omega
            subst hj2
            rw [hps]
            exact le_of_not_lt h
        · intro j h1 hj
          rw [hval] at hj ⊢
          exact ih5 j h1 hj

/-- Claim C1: for every embedding list of size at least 2, the search of
lines 376-402 selects `best_n` as the smallest `k` in
`1..min(10, len(embeddings))` maximizing `score[k] - penalty(k)` where
`penalty(1) = 0`, `penalty(2) = 0.01`, `penalty(k) = (k-2)*0.03 + 0.01`
for `k > 2`; `score[1]` is the fixed heuristic on `avg_similarity` and
`score[k] = silhouette(k)` for `k > 1`; a candidate `k ≥ 2` displaces
the running best only when its penalized score strictly exceeds it, so
every smaller candidate scores strictly below the winner (ties keep the
smaller `k`). -/
theorem bestN_least_penalized_argmax (n : ℕ) (avgSimilarity : ℚ) (sil : ℕ → ℚ)
    (hn : 2 ≤ n) :
    (1 ≤ bestN n avgSimilarity sil ∧ bestN n avgSimilarity sil ≤ maxSpeakers n) ∧
    (∀ j, 1 ≤ j → j ≤ maxSpeakers n →
      pscore avgSimilarity sil j ≤ pscore avgSimilarity sil (bestN n avgSimilarity sil)) ∧
    (∀ j, 1 ≤ j → j < bestN n avgSimilarity sil →
      pscore avgSimilarity sil j < pscore avgSimilarity sil (bestN n avgSimilarity sil)) ∧
    penaltySpec 1 = 0 ∧ penaltySpec 2 = 1/100 ∧
    (∀ k, 2 < k → penaltySpec k = ((k : ℚ) - 2) * (3/100) + 1/100) ∧
    clusterScores avgSimilarity sil 1 =
      (if 85/100 < avgSimilarity then 28/100
       else if 75/100 < avgSimilarity then 12/100
       else if 65/100 < avgSimilarity then 0 else -(15/100)) ∧
    (∀ k, 2 ≤ k → clusterScores avgSimilarity sil k = sil k) := by
  have hms : 2 ≤ maxSpeakers n := by
    unfold maxSpeakers; omega
  have hk : maxSpeakers n - 1 + 1 = maxSpeakers n := by omega
  obtain ⟨h1, h2, h3, h4, h5⟩ := bestFold_invariant avgSimilarity sil (maxSpeakers n - 1)
  rw [hk] at h2 h4
  rw [← bestN_eq_bestFold] at h1 h2 h3 h5
  rw [h3] at h4 h5
  refine ⟨⟨h1, h2⟩, h4, h5, ?_, ?_, ?_, ?_, ?_⟩
  · simp [penaltySpec]
  · simp [penaltySpec, penalty]
  · intro k hk2
    have hne : k ≠ 1 := by omega
    have hne2 : k ≠ 2 := by omega
    have hcast : ((k - 2 : ℕ) : ℚ) = (k : ℚ) - 2 := by
      push_cast [Nat.cast_sub (by omega : 2 ≤ k)]
      ring
    simp [penaltySpec, penalty, hne, hne2, hcast]
  · simp [clusterScores, score1]
  · intro k hk2
    have hne : k ≠ 1 := by omega
    simp [clusterScores, hne]

/-- Witness for C1 at the concrete input `n = 2`, `avg_similarity = 9/10`,
silhouette constantly `0`: the hypothesis `2 ≤ 2` is discharged there. -/
theorem bestN_least_penalized_argmax_witness :
    (1 ≤ bestN 2 (9/10) (fun _ => 0) ∧ bestN 2 (9/10) (fun _ => 0) ≤ maxSpeakers 2) ∧
    (∀ j, 1 ≤ j → j ≤ maxSpeakers 2 →
      pscore (9/10) (fun _ => 0) j ≤ pscore (9/10) (fun _ => 0) (bestN 2 (9/10) (fun _ => 0))) ∧
    (∀ j, 1 ≤ j → j < bestN 2 (9/10) (fun _ => 0) →
      pscore (9/10) (fun _ => 0) j < pscore (9/10) (fun _ => 0) (bestN 2 (9/10) (fun _ => 0))) ∧
    penaltySpec 1 = 0 ∧ penaltySpec 2 = 1/100 ∧
    (∀ k, 2 < k → penaltySpec k = ((k : ℚ) - 2) * (3/100) + 1/100) ∧
    clusterScores (9/10) (fun _ => 0) 1 =
      (if 85/100 < (9/10 : ℚ) then 28/100
       else if 75/100 < (9/10 : ℚ) then 12/100
       else if 65/100 < (9/10 : ℚ) then 0 else -(15/100)) ∧
    (∀ k, 2 ≤ k → clusterScores (9/10) (fun _ => 0) k = (fun _ => (0 : ℚ)) k) :=
  bestN_least_penalized_argmax 2 (9/10) (fun _ => 0) (by norm_num)

/-- Claim C9: for every embedding list of size 0 or 1, `_cluster`
(line 356-357) returns a same-length list that is all zeros, independent
of the similarity statistics and of the clustering library. -/
theorem cluster_small_all_zero (n : ℕ) (avgSimilarity minSimilarity : ℚ)
    (sil : ℕ → ℚ) (fitPredict : ℕ → List ℕ) (h : n < 2) :
    cluster n avgSimilarity minSimilarity sil fitPredict = List.replicate n 0 ∧
    (cluster n avgSimilarity minSimilarity sil fitPredict).length = n ∧
    ∀ l ∈ cluster n avgSimilarity minSimilarity sil fitPredict, l = 0 := by
  refine ⟨by simp [cluster, h], by simp [cluster, h], ?_⟩
  intro l hl
  rw [cluster, if_pos h] at hl
  exact List.eq_of_mem_replicate hl

/-- Witness for C9 at one embedding (`n = 1`), arbitrary oracles. -/
theorem cluster_small_all_zero_witness :
    cluster 1 0 0 (fun _ => 0) (fun _ => []) = List.replicate 1 0 ∧
    (cluster 1 0 0 (fun _ => 0) (fun _ => [])).length = 1 ∧
    ∀ l ∈ cluster 1 0 0 (fun _ => 0) (fun _ => []), l = 0 :=
  cluster_small_all_zero 1 0 0 (fun _ => 0) (fun _ => []) (by norm_num)

lemma two_le_of_one_lt_bestN {n : ℕ} {a : ℚ} {sil : ℕ → ℚ}
    (hb : 1 < bestN n a sil) : 2 ≤ n := by
  by_contra hlt
  have hms : maxSpeakers n - 1 = 0 := by
    unfold maxSpeakers; omega
  have h1 := (bestFold_invariant a sil (maxSpeakers n - 1)).2.1
  rw [hms] at h1
  rw [bestN_eq_bestFold] at hb
  rw [hms] at hb
  omega

/-- Claim C2: the reversion guard of lines 404-409.  When the penalized
search yields `best_n > 1`, and `avg_similarity > 0.92`,
`min_similarity > 0.80`, `scores[best_n] < 0.2` and
`scores[1] > scores[best_n] + 0.1` all hold, `best_n` is forced to `1`
and the final labels are the single-cluster labelling
(`AgglomerativeClustering(n_clusters=1).fit_predict`); when any of those
four conditions fails, `best_n` is left unchanged. -/
theorem finalBestN_reversion_guard (n : ℕ) (avgSimilarity minSimilarity : ℚ)
    (sil : ℕ → ℚ) (fitPredict : ℕ → List ℕ)
    (hb : 1 < bestN n avgSimilarity sil) :
    (92/100 < avgSimilarity → 80/100 < minSimilarity →
      clusterScores avgSimilarity sil (bestN n avgSimilarity sil) < 2/10 →
      clusterScores avgSimilarity sil (bestN n avgSimilarity sil) + 1/10 <
        clusterScores avgSimilarity sil 1 →
      finalBestN n avgSimilarity minSimilarity sil = 1 ∧
        cluster n avgSimilarity minSimilarity sil fitPredict = fitPredict 1) ∧
    ((¬ 92/100 < avgSimilarity ∨ ¬ 80/100 < minSimilarity ∨
      ¬ clusterScores avgSimilarity sil (bestN n avgSimilarity sil) < 2/10 ∨
      ¬ clusterScores avgSimilarity sil (bestN n avgSimilarity sil) + 1/10 <
          clusterScores avgSimilarity sil 1) →
      finalBestN n avgSimilarity minSimilarity sil = bestN n avgSimilarity sil) := by
  have hn : 2 ≤ n := two_le_of_one_lt_bestN hb
  constructor
  · intro h1 h2 h3 h4
    have hcond : finalBestN n avgSimilarity minSimilarity sil = 1 := by
      rw [finalBestN, if_pos ⟨hb, h1, h2, h3, h4⟩]
    refine ⟨hcond, ?_⟩
    rw [cluster, if_neg (by omega), hcond]
  · intro hfail
    rw [finalBestN, if_neg]
    rintro ⟨-, c1, c2, c3, c4⟩
    rcases hfail with h | h | h | h <;> exact h (by assumption)

lemma assignSpeakers_length (valid : List (ℚ × ℚ)) (labels : List ℕ) :
    ∀ (segs : List RawSeg) (li : ℕ),
      (assignSpeakers valid labels segs li).length =
        segs.countP (fun s => s.start.isSome && s.endTime.isSome) := by
  intro segs
  induction segs with
  | nil => intro li; simp [assignSpeakers]
  | cons s rest ih =>
      intro li
      rcases hs : s.start with _ | st <;> rcases he : s.endTime with _ | en <;>
        simp only [assignSpeakers, hs, he, List.countP_cons, Option.isSome_none,
          Option.isSome_some, Bool.and_true, Bool.and_false, Bool.false_and] <;>
        try simpa using ih li
      by_cases h1 : li < valid.length
      · rw [if_pos h1]
        by_cases h2 : |st - (valid.getD li (0, 0)).1| < 1/20 ∧
            |en - (valid.getD li (0, 0)).2| < 1/20
        · rw [if_pos h2]; simp [ih (li + 1)]
        · rw [if_neg h2]; simp [ih li]
      · rw [if_neg h1]; simp [ih li]

/-- Counterexample to Claim C3 as stated: on the full segment list
`[{start: None, end: None}, {start: 0, end: 1}]` with one surviving
segment `(0, 1)` labelled `0`, the assignment output has one entry, not
one per segment of the full input list. -/
theorem assign_walk_counterexample :
    (diarize [⟨none, none⟩, ⟨some 0, some 1⟩] [(0, 1)] [0]).length ≠ 2 := by
  rw [diarize, if_neg (by simp), if_neg (by simp)]
  norm_num [assignSpeakers]

/-- Claim C3 (amended): the assigner walks the full list in order with a
pointer into the surviving list; a segment whose start or end timestamp
is missing (`None`) is skipped without an output entry and without
advancing the pointer; a segment whose `(start, end)` is within `0.05`
of the next surviving segment's on both bounds receives that surviving
segment's cluster label and advances the pointer; any other timestamped
segment receives the default speaker-0 label without advancing; the
output has exactly one entry per segment of the full input list that
carries both timestamps. -/
theorem assign_walk_characterization (valid : List (ℚ × ℚ)) (labels : List ℕ) :
    (∀ (segs : List RawSeg) (li : ℕ),
      (assignSpeakers valid labels segs li).length =
        segs.countP (fun s => s.start.isSome && s.endTime.isSome)) ∧
    (∀ (s : RawSeg) (segs : List RawSeg) (li : ℕ) (st en : ℚ),
      s.start = some st → s.endTime = some en → li < valid.length →
      |st - (valid.getD li (0, 0)).1| < 1/20 → |en - (valid.getD li (0, 0)).2| < 1/20 →
      assignSpeakers valid labels (s :: segs) li =
        ⟨"Speaker " ++ toString (labels.getD li 0), st, en⟩ ::
          assignSpeakers valid labels segs (li + 1)) ∧
    (∀ (s : RawSeg) (segs : List RawSeg) (li : ℕ) (st en : ℚ),
      s.start = some st → s.endTime = some en →
      (li < valid.length →
        ¬(|st - (valid.getD li (0, 0)).1| < 1/20 ∧ |en - (valid.getD li (0, 0)).2| < 1/20)) →
      assignSpeakers valid labels (s :: segs) li =
        ⟨"Speaker 0", st, en⟩ :: assignSpeakers valid labels segs li) ∧
    (∀ (s : RawSeg) (segs : List RawSeg) (li : ℕ),
      s.start = none ∨ s.endTime = none →
      assignSpeakers valid labels (s :: segs) li = assignSpeakers valid labels segs li) := by
  refine ⟨assignSpeakers_length valid labels, ?_, ?_, ?_⟩
  · intro s segs li st en hs he h1 h2 h3
    simp only [assignSpeakers, hs, he]
    rw [if_pos h1, if_pos ⟨h2, h3⟩]
  · intro s segs li st en hs he hfail
    simp only [assignSpeakers, hs, he]
    by_cases h1 : li < valid.length
    · rw [if_pos h1, if_neg (hfail h1)]
    · rw [if_neg h1]
  · intro s segs li hnone
    rcases hnone with h | h <;> rcases hs : s.start with _ | st <;>
      rcases he : s.endTime with _ | en <;>
      simp_all [assignSpeakers]

/-- Claim C8: for every non-empty segment list with zero usable
embeddings, `diarize` (lines 288-290) returns one assignment per input
segment, each with the default `"Speaker 0"` label and the segment's
start and end (`None` timestamps becoming `0` through Python's
`or 0`); no error state is entered. -/
theorem diarize_no_embeddings (segs : List RawSeg) (labels : List ℕ)
    (h : segs ≠ []) :
    diarize segs [] labels =
      segs.map (fun s => ⟨"Speaker 0", s.start.getD 0, s.endTime.getD 0⟩) ∧
    (diarize segs [] labels).length = segs.length ∧
    ∀ out ∈ diarize segs [] labels, out.speaker = "Speaker 0" := by
  have hd : diarize segs [] labels =
      segs.map (fun s => ⟨"Speaker 0", s.start.getD 0, s.endTime.getD 0⟩) := by
    rw [diarize, if_neg h, if_pos rfl]
  refine ⟨hd, by rw [hd]; simp, ?_⟩
  intro out hout
  rw [hd] at hout
  obtain ⟨s, -, rfl⟩ := List.mem_map.mp hout
  rfl

/-- Witness for C8 at the one-segment list `[{start: 0, end: 1}]`. -/
theorem diarize_no_embeddings_witness :
    diarize ([⟨some 0, some 1⟩] : List RawSeg) [] [] =
      ([⟨some 0, some 1⟩] : List RawSeg).map
        (fun s : RawSeg => ⟨"Speaker 0", s.start.getD 0, s.endTime.getD 0⟩) ∧
    (diarize ([⟨some 0, some 1⟩] : List RawSeg) [] []).length =
      ([⟨some 0, some 1⟩] : List RawSeg).length ∧
    ∀ out ∈ diarize ([⟨some 0, some 1⟩] : List RawSeg) [] [],
      out.speaker = "Speaker 0" :=
  diarize_no_embeddings [⟨some 0, some 1⟩] [] (by simp)

lemma collapseRun_singleton (e : TranscriptEntry) : collapseRun [e] = e := by
  cases e
  simp [collapseRun, joinTexts]

lemma joinTexts_glue (a b : String) (ts : List String) :
    joinTexts ((a ++ " " ++ b) :: ts) = a ++ " " ++ joinTexts (b :: ts) := by
  cases ts with
  | nil => simp [joinTexts]
  | cons t ts2 => simp [joinTexts, String.append_assoc]

lemma runsBy_cons_nil (e : TranscriptEntry) (rest : List TranscriptEntry)
    (h : runsBy rest = []) : runsBy (e :: rest) = [[e]] := by
  rw [runsBy, h]

lemma runsBy_cons_cons (e : TranscriptEntry) (rest r : List TranscriptEntry)
    (rs : List (List TranscriptEntry)) (h : runsBy rest = r :: rs) :
    runsBy (e :: rest) =
      if e.speakerIndex = r.headI.speakerIndex then (e :: r) :: rs
      else [e] :: r :: rs := by
  rw [runsBy, h]

lemma mergeGo_cons (cur e : TranscriptEntry) (rest : List TranscriptEntry) :
    mergeGo cur (e :: rest) =
      if cur.speakerIndex = e.speakerIndex then
        mergeGo { cur with text := cur.text ++ " " ++ e.text } rest
      else cur :: mergeGo e rest := rfl

lemma runsBy_shape (l : List TranscriptEntry) :
    ∀ x : TranscriptEntry, ∃ t rs, runsBy (x :: l) = (x :: t) :: rs := by
  induction l with
  | nil => intro x; exact ⟨[], [], rfl⟩
  | cons e rest ih =>
      intro x
      obtain ⟨t, rs, hr⟩ := ih e
      by_cases h : x.speakerIndex = e.speakerIndex
      · refine ⟨e :: t, rs, ?_⟩
        rw [runsBy_cons_cons x (e :: rest) (e :: t) rs hr, if_pos (by simpa using h)]
      · refine ⟨[], (e :: t) :: rs, ?_⟩
        rw [runsBy_cons_cons x (e :: rest) (e :: t) rs hr, if_neg (by simpa using h)]

lemma runsBy_replace_head {e x : TranscriptEntry} {rest : List TranscriptEntry}
    {t : List TranscriptEntry} {rs : List (List TranscriptEntry)}
    (h : runsBy (e :: rest) = (e :: t) :: rs)
    (hx : x.speakerIndex = e.speakerIndex) :
    runsBy (x :: rest) = (x :: t) :: rs := by
  rcases hr : runsBy rest with _ | ⟨r, rs2⟩
  · rw [runsBy_cons_nil e rest hr] at h
    injection h with h1 h2
    injection h1 with h3 h4
    subst h4; subst h2
    exact runsBy_cons_nil x rest hr
  · rw [runsBy_cons_cons e rest r rs2 hr] at h
    by_cases hh : e.speakerIndex = r.headI.speakerIndex
    · rw [if_pos hh] at h
      injection h with h1 h2
      injection h1 with h3 h4
      subst h4; subst h2
      rw [runsBy_cons_cons x rest r rs2 hr, if_pos (by rw [hx]; exact hh)]
    · rw [if_neg hh] at h
      injection h with h1 h2
      injection h1 with h3 h4
      subst h4; subst h2
      rw [runsBy_cons_cons x rest r rs2 hr, if_neg (by rw [hx]; exact hh)]

lemma mergeGo_eq_runs (l : List TranscriptEntry) :
    ∀ cur : TranscriptEntry, mergeGo cur l = (runsBy (cur :: l)).map collapseRun := by
  induction l with
  | nil =>
      intro cur
      rw [show mergeGo cur [] = [cur] from rfl, runsBy_cons_nil cur [] rfl]
      simp [collapseRun_singleton]
  | cons e rest ih =>
      intro cur
      obtain ⟨t, rs, hr⟩ := runsBy_shape rest e
      by_cases h : cur.speakerIndex = e.speakerIndex
      · have hr2 : runsBy (cur :: e :: rest) = (cur :: e :: t) :: rs := by
          rw [runsBy_cons_cons cur (e :: rest) (e :: t) rs hr, if_pos (by simpa using h)]
        have hr3 : runsBy ({ cur with text := cur.text ++ " " ++ e.text } :: rest) =
            ({ cur with text := cur.text ++ " " ++ e.text } :: t) :: rs :=
          runsBy_replace_head hr h
        rw [mergeGo_cons, if_pos h, ih, hr3, hr2]
        simp only [List.map_cons]
        congr 1
        simp [collapseRun, joinTexts, joinTexts_glue]
      · have hr2 : runsBy (cur :: e :: rest) = [cur] :: (e :: t) :: rs := by
          rw [runsBy_cons_cons cur (e :: rest) (e :: t) rs hr, if_neg (by simpa using h)]
        rw [mergeGo_cons, if_neg h, ih, hr2, hr]
        simp [collapseRun_singleton]

lemma foldl_mergeStep_concat (rest : List TranscriptEntry) :
    ∀ (pre : List TranscriptEntry) (cur : TranscriptEntry),
      rest.foldl mergeStep (pre ++ [cur]) = pre ++ mergeGo cur rest := by
  induction rest with
  | nil => intro pre cur; simp [mergeGo]
  | cons e rest2 ih =>
      intro pre cur
      rw [List.foldl_cons]
      by_cases h : cur.speakerIndex = e.speakerIndex
      · have hstep : mergeStep (pre ++ [cur]) e =
            pre ++ [{ cur with text := cur.text ++ " " ++ e.text }] := by
          simp [mergeStep, List.getLast?_concat, h, List.dropLast_concat]
        rw [hstep, ih, mergeGo_cons, if_pos h]
      · have hstep : mergeStep (pre ++ [cur]) e = (pre ++ [cur]) ++ [e] := by
          simp [mergeStep, List.getLast?_concat, h]
        rw [hstep, ih, mergeGo_cons, if_neg h]
        simp

lemma mergeEntries_eq_runs (l : List TranscriptEntry) :
    mergeEntries l = (runsBy l).map collapseRun := by
  cases l with
  | nil => rfl
  | cons e rest =>
      have h1 : mergeEntries (e :: rest) = rest.foldl mergeStep ([] ++ [e]) := by
        rw [mergeEntries, List.foldl_cons]
        rfl
      rw [h1, foldl_mergeStep_concat rest [] e, mergeGo_eq_runs]
      rfl

lemma runsBy_flatten (l : List TranscriptEntry) : (runsBy l).flatten = l := by
  induction l with
  | nil => rfl
  | cons e rest ih =>
      rcases hr : runsBy rest with _ | ⟨r, rs⟩
      · rw [hr] at ih
        simp only [List.flatten_nil] at ih
        rw [runsBy_cons_nil e rest hr, ← ih]
        rfl
      · rw [hr] at ih
        rw [runsBy_cons_cons e rest r rs hr]
        by_cases h : e.speakerIndex = r.headI.speakerIndex
        · rw [if_pos h]
          simp only [List.flatten_cons] at ih ⊢
          rw [List.cons_append, ih]
        · rw [if_neg h]
          simp only [List.flatten_cons] at ih ⊢
          simp [ih]

lemma runsBy_runs (l : List TranscriptEntry) :
    ∀ r ∈ runsBy l, r ≠ [] ∧ ∀ a ∈ r, a.speakerIndex = r.headI.speakerIndex := by
  induction l with
  | nil => simp [runsBy]
  | cons e rest ih =>
      rcases hr : runsBy rest with _ | ⟨r0, rs⟩
      · rw [runsBy_cons_nil e rest hr]
        intro r hrr
        simp only [List.mem_singleton] at hrr
        subst hrr
        refine ⟨by simp, ?_⟩
        intro a ha
        simp only [List.mem_singleton] at ha
        subst ha
        rfl
      · rw [hr] at ih
        rw [runsBy_cons_cons e rest r0 rs hr]
        by_cases h : e.speakerIndex = r0.headI.speakerIndex
        · rw [if_pos h]
          intro r hrr
          rcases List.mem_cons.mp hrr with hhead | htail
          · subst hhead
            refine ⟨by simp, ?_⟩
            intro a ha
            rcases List.mem_cons.mp ha with rfl | ha0
            · rfl
            · have := (ih r0 (by simp)).2 a ha0
              simp only [List.headI_cons]
              rw [this, ← h]
          · exact ih r (by simp [htail])
        · rw [if_neg h]
          intro r hrr
          rcases List.mem_cons.mp hrr with hhead | htail
          · subst hhead
            refine ⟨by simp, ?_⟩
            intro a ha
            simp only [List.mem_singleton] at ha
            subst ha
            rfl
          · exact ih r htail

lemma runsBy_chain (l : List TranscriptEntry) :
    List.Chain' (fun r s => r.headI.speakerIndex ≠ s.headI.speakerIndex) (runsBy l) := by
  induction l with
  | nil => simp [runsBy]
  | cons e rest ih =>
      rcases hr : runsBy rest with _ | ⟨r0, rs⟩
      · rw [runsBy_cons_nil e rest hr]
        simp
      · rw [hr] at ih
        rw [runsBy_cons_cons e rest r0 rs hr]
        by_cases h : e.speakerIndex = r0.headI.speakerIndex
        · rw [if_pos h]
          rw [List.chain'_cons'] at ih ⊢
          refine ⟨?_, ih.2⟩
          intro y hy
          have := ih.1 y hy
          simpa [h] using this
        · rw [if_neg h]
          exact List.Chain'.cons h ih

lemma runsBy_length_le (l : List TranscriptEntry) : (runsBy l).length ≤ l.length := by
  induction l with
  | nil => simp [runsBy]
  | cons e rest ih =>
      rcases hr : runsBy rest with _ | ⟨r0, rs⟩
      · rw [runsBy_cons_nil e rest hr]; simp
      · rw [hr] at ih
        rw [runsBy_cons_cons e rest r0 rs hr]
        by_cases h : e.speakerIndex = r0.headI.speakerIndex
        · rw [if_pos h]
          simp only [List.length_cons] at ih ⊢
          omega
        · rw [if_neg h]
          simp only [List.length_cons] at ih ⊢
          omega

/-- Claim C6: the merge step of lines 585-593 combines exactly the
maximal runs of adjacent entries sharing the same `speakerIndex`: the
merged output is the run decomposition mapped through `collapseRun`
(texts joined by one space, the first entry's speaker index and
timestamp kept); the output never has more entries than the input; the
runs partition the input in order (so non-adjacent equal-speaker
entries are never merged or reordered), each run is non-empty and
constant in `speakerIndex`, and adjacent runs carry different speaker
indices (maximality). -/
theorem merge_combines_adjacent_runs (entries : List TranscriptEntry) :
    mergeEntries entries = (runsBy entries).map collapseRun ∧
    (mergeEntries entries).length ≤ entries.length ∧
    (runsBy entries).flatten = entries ∧
    (∀ r ∈ runsBy entries, r ≠ [] ∧ ∀ a ∈ r, a.speakerIndex = r.headI.speakerIndex) ∧
    List.Chain' (fun r s => r.headI.speakerIndex ≠ s.headI.speakerIndex)
      (runsBy entries) ∧
    (∀ r ∈ runsBy entries, collapseRun r =
      ⟨joinTexts (r.map TranscriptEntry.text), r.headI.speakerIndex,
        r.headI.timestamp⟩) := by
  refine ⟨mergeEntries_eq_runs entries, ?_, runsBy_flatten entries, runsBy_runs entries,
    runsBy_chain entries, fun r _ => rfl⟩
  rw [mergeEntries_eq_runs]
  simpa using runsBy_length_le entries

/-- Claim C7: the speaker-index mapping of lines 570-583 is a bijection
from the sorted distinct label set onto `0..N-1`: the list of distinct
labels is sorted and duplicate-free, every label's index is below `N`,
distinct labels get distinct indices, every index below `N` is hit, and
every produced entry's `speakerIndex` is the image of its source
entry's speaker label under that mapping. -/
theorem speaker_index_bijection (combined : List CombinedSeg) :
    (speakersOf combined).Sorted (· ≤ ·) ∧
    (speakersOf combined).Nodup ∧
    (∀ e ∈ combined, e.speaker ∈ speakersOf combined) ∧
    (∀ s ∈ speakersOf combined, speakerMap combined s < (speakersOf combined).length) ∧
    (∀ s ∈ speakersOf combined, ∀ t ∈ speakersOf combined,
      speakerMap combined s = speakerMap combined t → s = t) ∧
    (∀ i, i < (speakersOf combined).length →
      ∃ s ∈ speakersOf combined, speakerMap combined s = i) ∧
    (transcribedText combined).length = combined.length ∧
    (∀ i (h : i < combined.length),
      ((transcribedText combined).getD i default).speakerIndex =
        speakerMap combined (combined.get ⟨i, h⟩).speaker) := by
  refine ⟨Finset.sort_sorted _ _, Finset.sort_nodup _ _, ?_, ?_, ?_, ?_, ?_, ?_⟩
  · intro e he
    rw [speakersOf, Finset.mem_sort, List.mem_toFinset]
    exact List.mem_map_of_mem CombinedSeg.speaker he
  · intro s hs
    exact List.indexOf_lt_length.mpr hs
  · intro s hs t ht hst
    have h1 : (speakersOf combined).indexOf s < (speakersOf combined).length :=
      List.indexOf_lt_length.mpr hs
    have h2 : (speakersOf combined).indexOf t < (speakersOf combined).length :=
      List.indexOf_lt_length.mpr ht
    have e1 := List.indexOf_get h1
    have e2 := List.indexOf_get h2
    rw [← e1, ← e2]
    simp only [speakerMap] at hst
    congr 1
    exact Fin.ext hst
  · intro i hi
    refine ⟨(speakersOf combined).get ⟨i, hi⟩, List.get_mem _ _ _, ?_⟩
    exact List.get_indexOf (Finset.sort_nodup _ _) ⟨i, hi⟩
  · simp [transcribedText]
  · intro i h
    have hlen : (transcribedText combined).length = combined.length := by
      simp [transcribedText]
    rw [List.getD_eq_getElem _ _ (by rw [hlen]; exact h)]
    simp [transcribedText]

/-- Witness for C2 at `n = 3`, `avg_similarity = 9/10`, silhouette
constantly `1/2` (so the search picks `best_n = 2 > 1`); the hypothesis
is discharged there. -/
theorem finalBestN_reversion_guard_witness :
    (92/100 < (9/10 : ℚ) → 80/100 < (1/2 : ℚ) →
      clusterScores (9/10) (fun _ => 1/2) (bestN 3 (9/10) (fun _ => 1/2)) < 2/10 →
      clusterScores (9/10) (fun _ => 1/2) (bestN 3 (9/10) (fun _ => 1/2)) + 1/10 <
        clusterScores (9/10) (fun _ => 1/2) 1 →
      finalBestN 3 (9/10) (1/2) (fun _ => 1/2) = 1 ∧
        cluster 3 (9/10) (1/2) (fun _ => 1/2) (fun k => List.replicate 3 (k - 1)) =
          (fun k => List.replicate 3 (k - 1)) 1) ∧
    ((¬ 92/100 < (9/10 : ℚ) ∨ ¬ 80/100 < (1/2 : ℚ) ∨
      ¬ clusterScores (9/10) (fun _ => 1/2) (bestN 3 (9/10) (fun _ => 1/2)) < 2/10 ∨
      ¬ clusterScores (9/10) (fun _ => 1/2) (bestN 3 (9/10) (fun _ => 1/2)) + 1/10 <
          clusterScores (9/10) (fun _ => 1/2) 1) →
      finalBestN 3 (9/10) (1/2) (fun _ => 1/2) = bestN 3 (9/10) (fun _ => 1/2)) :=
  finalBestN_reversion_guard 3 (9/10) (1/2) (fun _ => 1/2) (fun k => List.replicate 3 (k - 1))
    (by norm_num [bestN, bestFold, maxSpeakers, bestStep, clusterScores, score1, penalty,
      List.range'])

lemma lookupJob_setJob_same (tbl : List (String × JobStatus)) (fp : String)
    (st : JobStatus) : lookupJob (setJob tbl fp st) fp = some st := by
  induction tbl with
  | nil => simp [setJob, lookupJob]
  | cons p rest ih =>
      by_cases h : p.1 = fp
      · simp [setJob, h, lookupJob]
      · simp only [setJob, if_neg h]
        simp only [lookupJob] at ih ⊢
        rw [List.find?_cons_of_neg _ (by simpa using h)]
        exact ih

lemma lookupJob_setJob_other (tbl : List (String × JobStatus)) (fp fp2 : String)
    (st : JobStatus) (h : fp2 ≠ fp) :
    lookupJob (setJob tbl fp st) fp2 = lookupJob tbl fp2 := by
  induction tbl with
  | nil =>
      simp only [setJob, lookupJob]
      rw [List.find?_cons_of_neg _ (by simp; exact fun hc => h hc.symm)]
  | cons p rest ih =>
      by_cases hp : p.1 = fp
      · simp only [setJob, if_pos hp, lookupJob]
        rw [List.find?_cons_of_neg _ (by simpa using fun hc => h hc.symm),
          List.find?_cons_of_neg _ (by simp [hp]; exact fun hc => h hc.symm)]
      · simp only [setJob, if_neg hp, lookupJob] at ih ⊢
        by_cases hq : p.1 = fp2
        · rw [List.find?_cons_of_pos _ (by simpa using hq),
            List.find?_cons_of_pos _ (by simpa using hq)]
        · rw [List.find?_cons_of_neg _ (by simpa using hq),
            List.find?_cons_of_neg _ (by simpa using hq)]
          exact ih

lemma transcribeFile_sets_terminal (tbl : List (String × JobStatus)) (fp : String)
    (outcome : JobOutcome) :
    ∃ st : JobStatus, lookupJob (transcribeFile tbl fp outcome) fp = some st ∧
      st.status = expectedStatus outcome ∧
      (∀ m, outcome = .transcribeError m → st.message = m) ∧
      (∀ m, outcome = .saveError m → st.message = m) := by
  rcases h0 : lookupJob tbl fp with _ | st0 <;> cases outcome <;>
    simp [transcribeFile, h0, lookupJob_setJob_same, expectedStatus]

lemma transcribeFile_frame (tbl : List (String × JobStatus)) (fp : String)
    (outcome : JobOutcome) (fp2 : String) (h : fp2 ≠ fp) :
    lookupJob (transcribeFile tbl fp outcome) fp2 = lookupJob tbl fp2 := by
  rcases h0 : lookupJob tbl fp with _ | st0 <;> cases outcome <;>
    simp [transcribeFile, h0, lookupJob_setJob_same, lookupJob_setJob_other _ _ _ _ h]

lemma processQueue_frame (queue : List (String × JobOutcome)) :
    ∀ (tbl : List (String × JobStatus)) (fp : String), fp ∉ queue.map Prod.fst →
      lookupJob (processQueue tbl queue) fp = lookupJob tbl fp := by
  induction queue with
  | nil => intro tbl fp _; rfl
  | cons q rest ih =>
      intro tbl fp hfp
      obtain ⟨fp0, o⟩ := q
      simp only [List.map_cons, List.mem_cons] at hfp
      push_neg at hfp
      rw [show processQueue tbl ((fp0, o) :: rest) =
        processQueue (transcribeFile tbl fp0 o) rest from rfl]
      rw [ih _ fp hfp.2]
      exact transcribeFile_frame tbl fp0 o fp hfp.1

/-- Claim C4: for every queue of jobs with arbitrary per-job outcomes
(clean runs, exceptions surfacing through `engine.transcribe`, or
exceptions raised around `save_result`), the worker loop processes the
whole queue: every job's status entry ends in a terminal state —
`"completed"` on success, `"error"` carrying the failure message
otherwise — and a failing job never prevents the jobs after it from
being processed (the model of `_process_queue` is a total function that
reaches every queue element). -/
theorem worker_processes_entire_queue (queue : List (String × JobOutcome))
    (tbl : List (String × JobStatus)) (hnd : (queue.map Prod.fst).Nodup) :
    ∀ p ∈ queue, ∃ st : JobStatus,
      lookupJob (processQueue tbl queue) p.1 = some st ∧
      st.status = expectedStatus p.2 ∧
      (∀ m, p.2 = .transcribeError m → st.message = m) ∧
      (∀ m, p.2 = .saveError m → st.message = m) := by
  induction queue generalizing tbl with
  | nil => intro p hp; simp at hp
  | cons q rest ih =>
      intro p hp
      obtain ⟨fp0, o⟩ := q
      simp only [List.map_cons, List.nodup_cons] at hnd
      rcases List.mem_cons.mp hp with rfl | hptail
      · obtain ⟨st, hst, hstat, hm1, hm2⟩ := transcribeFile_sets_terminal tbl fp0 o
        refine ⟨st, ?_, hstat, hm1, hm2⟩
        rw [show processQueue tbl ((fp0, o) :: rest) =
          processQueue (transcribeFile tbl fp0 o) rest from rfl]
        rw [processQueue_frame rest _ fp0 hnd.1]
        exact hst
      · exact ih (transcribeFile tbl fp0 o) hnd.2 p hptail

/-- Witness for C4: a two-job queue whose first job fails inside the
engine and whose second job succeeds — the failure is recorded and the
worker still completes the second job. -/
theorem worker_processes_entire_queue_witness :
    ∃ st : JobStatus,
      lookupJob (processQueue []
        [("a", JobOutcome.transcribeError "boom"), ("b", JobOutcome.success)])
        ("b", JobOutcome.success).1 = some st ∧
      st.status = expectedStatus ("b", JobOutcome.success).2 ∧
      (∀ m, ("b", JobOutcome.success).2 = JobOutcome.transcribeError m →
        st.message = m) ∧
      (∀ m, ("b", JobOutcome.success).2 = JobOutcome.saveError m →
        st.message = m) :=
  worker_processes_entire_queue
    [("a", JobOutcome.transcribeError "boom"), ("b", JobOutcome.success)] []
    (by decide) ("b", JobOutcome.success) (by decide)

/-- Claim C5 is false on the code: `startTranscription` checks
`self.is_processing` and starts the worker outside any lock (lines
258-260 of src/main.py), and the spawned worker sets the flag only as
its own first statement (line 268).  The schedule in which both callers
run to completion before either spawned thread is scheduled is a valid
interleaving of two concurrent `startTranscription` calls from the idle
state, and it spawns two workers. -/
theorem double_worker_spawn :
    validTwoCallerSchedule
      [SchedAction.enqueue 1, SchedAction.startIfIdle 1,
       SchedAction.enqueue 2, SchedAction.startIfIdle 2] ∧
    (schedRun [SchedAction.enqueue 1, SchedAction.startIfIdle 1,
       SchedAction.enqueue 2, SchedAction.startIfIdle 2]).workersSpawned = 2 := by
  refine ⟨⟨by decide, by decide, ?_⟩, by decide⟩
  intro k hk
  have hk4 : k ≤ 4 := by simpa using hk
  interval_cases k <;> decide

/-- Claim C10: a language string that is not (case-insensitively) "sv"
or "en" — including "auto" — is silently mapped to Swedish, a model
size outside tiny/small/medium/large is silently mapped to MEDIUM, and
the call still enqueues the jobs and reports success (lines 210-264 of
src/main.py reject nothing). -/
theorem startTranscription_silent_defaults
    (activeJobs : List (String × JobStatus)) (queue : List TranscriptionJob)
    (filePaths : List String) (language modelSize : String)
    (hl1 : strLower language ≠ "sv") (hl2 : strLower language ≠ "en")
    (hm : strLower modelSize ∉ (["tiny", "small", "medium", "large"] : List String)) :
    parseLanguage language = Language.SWEDISH ∧
    parseModelSize modelSize = ModelSize.MEDIUM ∧
    (startTranscription activeJobs queue filePaths language modelSize).1.success = true ∧
    (startTranscription activeJobs queue filePaths language modelSize).2.2 =
      queue ++ filePaths.map (fun fp => ⟨fp, Language.SWEDISH, ModelSize.MEDIUM⟩) := by
  simp only [List.mem_cons, List.mem_singleton, not_or] at hm
  have h1 : parseLanguage language = Language.SWEDISH := by
    simp [parseLanguage, hl1, hl2]
  have h2 : parseModelSize modelSize = ModelSize.MEDIUM := by
    simp [parseModelSize, hm.1, hm.2.1, hm.2.2.1, hm.2.2.2]
  refine ⟨h1, h2, rfl, ?_⟩
  simp [startTranscription, h1, h2]

/-- Witness for C10 at `language = "auto"`, `model_size = "huge"`, one
queued file. -/
theorem startTranscription_silent_defaults_witness :
    parseLanguage "auto" = Language.SWEDISH ∧
    parseModelSize "huge" = ModelSize.MEDIUM ∧
    (startTranscription [] [] ["file.mp3"] "auto" "huge").1.success = true ∧
    (startTranscription [] [] ["file.mp3"] "auto" "huge").2.2 =
      [] ++ ["file.mp3"].map (fun fp => ⟨fp, Language.SWEDISH, ModelSize.MEDIUM⟩) :=
  startTranscription_silent_defaults [] [] ["file.mp3"] "auto" "huge"
    (by decide) (by decide) (by decide)

end Transcriber
